import Mathlib

/-!
Verification of the synchronization engine of the `importable` repository:
the path-keyed identity registry (`getStableFileSystemHandle`), the
recursive directory crawlers (`crawlDirectoryHandle` in its several
prototype versions), the restoration loader (`clientLoader`), the session
actor (`makeMainActor` / `showDirectoryPicker`), and the trigger/crawl
pipeline (`makeFilesStream`).

Modelling conventions:
* A filesystem entity is an `FsTree`: a file, a live directory with an
  enumeration-ordered child list, or a directory whose enumeration throws
  (e.g. a volume unmounted mid-crawl).
* JavaScript `Map`/object state is an insertion-ordered association list;
  `jsSet` updates an existing key in place and appends a fresh one, which
  is exactly the JS semantics.
* A `WeakRef` whose referent was collected derefs to `undefined`; in the
  registry model a collected entry is represented as an absent key.
* `isSameEntry` returns a `Promise`.  Where the source awaits it, the
  model consults the boolean; where the source does not await it (the
  registry in `lib/files.ts` and the crawler in `lib/revalidate.ts`), the
  model follows JS truthiness: any `Promise` object is truthy.
-/

/-- Model of a filesystem entity reachable from a directory handle.
`brokenDir` is a directory handle whose enumeration throws (unmounted). -/
inductive FsTree where
  | file (name : String)
  | dir (name : String) (children : List FsTree)
  | brokenDir (name : String)

/-- The `name` property of a handle. -/
def FsTree.name : FsTree → String
  | .file n => n
  | .dir n _ => n
  | .brokenDir n => n

/-- The `kind === "file"` test on a handle. -/
def FsTree.isFileKind : FsTree → Bool
  | .file _ => true
  | .dir _ _ => false
  | .brokenDir _ => false

/-- Lookup in an insertion-ordered JS map/object (string keys). -/
def jsGet {α : Type} : List (String × α) → String → Option α
  | [], _ => none
  | (k, v) :: rest, key => if k = key then some v else jsGet rest key

/-- JS `Map.set` / object property assignment: an existing key is updated
in place (keeping its position), a new key is appended. -/
def jsSet {α : Type} : List (String × α) → String → α → List (String × α)
  | [], key, value => [(key, value)]
  | (k, v) :: rest, key, value =>
    if k = key then (k, value) :: rest else (k, v) :: jsSet rest key value

theorem jsGet_jsSet_self {α : Type} (m : List (String × α)) (k : String) (v : α) :
    jsGet (jsSet m k v) k = some v := by
  induction m with
  | nil => simp [jsSet, jsGet]
  | cons head rest ih =>
    obtain ⟨k', v'⟩ := head
    by_cases hk : k' = k
    · subst hk
      simp [jsSet, jsGet]
    · simp [jsSet, jsGet, hk, ih]

/-- A JS `Promise` as a value: it records the value it will eventually
resolve to, but before being awaited it is just an object. -/
structure JSPromise (α : Type) : Type where
  resolves : α

/-- JS truthiness of `x?.f(...)` where `f` returns a `Promise`: `undefined`
(absent receiver) is falsy, while any `Promise` object is truthy,
whatever boolean it will later resolve to. -/
def jsTruthy {α : Type} : Option (JSPromise α) → Bool
  | none => false
  | some _ => true

/-- The identity registry resolve from `app/lib/files.ts`
(`getStableFileSystemHandle`).  Translation notes: `known` models the
`knownFileSystemHandles` map after `WeakRef.deref` (a collected entry is
an absent key); `isSameEntry` is the platform equality test.  The source
evaluates `previousHandle?.isSameEntry(handle) ? previousHandle : handle`
without awaiting the `Promise`, so the ternary condition is the JS
truthiness of the optional-call result, not the boolean the promise
resolves to.  Returns the stable handle and the updated registry
(`knownFileSystemHandles.set(pathKey, new WeakRef(stableHandle))`). -/
def getStableFileSystemHandle {H : Type} (isSameEntry : H → H → Bool)
    (known : List (String × H)) (pathKey : String) (handle : H) :
    H × List (String × H) :=
  let previousHandle : Option H := jsGet known pathKey
  let sameEntryCall : Option (JSPromise Bool) :=
    previousHandle.map (fun prev => ⟨isSameEntry prev handle⟩)
  let stableHandle : H :=
    if jsTruthy sameEntryCall then previousHandle.getD handle else handle
  (stableHandle, jsSet known pathKey stableHandle)

theorem getStable_of_cached {H : Type} (isSameEntry : H → H → Bool)
    (known : List (String × H)) (pathKey : String) (handle prev : H)
    (hk : jsGet known pathKey = some prev) :
    getStableFileSystemHandle isSameEntry known pathKey handle
      = (prev, jsSet known pathKey prev) := by
  simp [getStableFileSystemHandle, hk, jsTruthy]

theorem getStable_of_absent {H : Type} (isSameEntry : H → H → Bool)
    (known : List (String × H)) (pathKey : String) (handle : H)
    (hk : jsGet known pathKey = none) :
    getStableFileSystemHandle isSameEntry known pathKey handle
      = (handle, jsSet known pathKey handle) := by
  simp [getStableFileSystemHandle, hk, jsTruthy]

/-- C4: resolving the same path key a second time returns the handle the
first resolution returned, given the equality test relates them.  (The
first resolution's result is still strongly held by the caller, so its
weak registry entry is live; value equality in the model stands for
reference equality of handles.) -/
theorem getStable_second_resolution_stable {H : Type} (isSameEntry : H → H → Bool)
    (known : List (String × H)) (pathKey : String) (h1 h2 : H)
    (hSame : isSameEntry (getStableFileSystemHandle isSameEntry known pathKey h1).1 h2 = true) :
    (getStableFileSystemHandle isSameEntry
        (getStableFileSystemHandle isSameEntry known pathKey h1).2 pathKey h2).1
      = (getStableFileSystemHandle isSameEntry known pathKey h1).1 := by
  have hset : jsGet (getStableFileSystemHandle isSameEntry known pathKey h1).2 pathKey
      = some (getStableFileSystemHandle isSameEntry known pathKey h1).1 := by
    simp only [getStableFileSystemHandle, jsGet_jsSet_self]
  rw [getStable_of_cached isSameEntry _ pathKey h2 _ hset]

/-- Closed instance of `getStable_second_resolution_stable`. -/
theorem getStable_second_resolution_stable_example :
    (fun a b : Nat => a == b) (getStableFileSystemHandle (fun a b : Nat => a == b) [] "a" 5).1 5 = true
    ∧ (getStableFileSystemHandle (fun a b : Nat => a == b)
          (getStableFileSystemHandle (fun a b : Nat => a == b) [] "a" 5).2 "a" 5).1
        = (getStableFileSystemHandle (fun a b : Nat => a == b) [] "a" 5).1 :=
  ⟨by decide,
   getStable_second_resolution_stable (fun a b : Nat => a == b) [] "a" 5 5 (by decide)⟩

/-- C9: every resolve returns either the cached handle or the observed
handle, and unconditionally overwrites the registry entry for the path
key with (a fresh weak reference to) the returned handle. -/
theorem getStable_result_and_overwrite {H : Type} (isSameEntry : H → H → Bool)
    (known : List (String × H)) (pathKey : String) (handle : H) :
    (jsGet known pathKey = some (getStableFileSystemHandle isSameEntry known pathKey handle).1
      ∨ (getStableFileSystemHandle isSameEntry known pathKey handle).1 = handle)
    ∧ jsGet (getStableFileSystemHandle isSameEntry known pathKey handle).2 pathKey
        = some (getStableFileSystemHandle isSameEntry known pathKey handle).1 := by
  constructor
  · cases hk : jsGet known pathKey with
    | none => exact Or.inr (by simp [getStableFileSystemHandle, hk, jsTruthy])
    | some prev => exact Or.inl (by simp [getStableFileSystemHandle, hk, jsTruthy])
  · simp only [getStableFileSystemHandle, jsGet_jsSet_self]

/-- C3 (evaluation at the failing input): with handle `1` cached at path
key `p` and newly observed handle `2`, the equality test reports `false`,
yet the registry resolve returns the stale cached handle `1` and leaves
`1` cached — the unawaited `isSameEntry` promise is truthy regardless of
the boolean it resolves to. -/
theorem getStable_stale_stickiness_eval :
    getStableFileSystemHandle (fun a b : Nat => a == b) [("p", 1)] "p" 2 = (1, [("p", 1)])
    ∧ (fun a b : Nat => a == b) 1 2 = false := by
  decide

/-- The `CRAWL_DISALLOW` policy: the single pattern is the regex for a
leading dot, so a name matches iff its first character is a dot. -/
def matchesDisallow (name : String) : Bool :=
  name.data.head? == some '.'

/-- A node of the display tree built by the crawler (`treeify`'s
`TreeObject`): a file name maps to the empty-string leaf marker, a
directory name (with a trailing slash) maps to a nested object. -/
inductive TreeNode where
  | leaf
  | node (entries : List (String × TreeNode))

/-- The error an unmounted directory's enumeration raises. -/
def enumerationError : String := "enumeration failed"

/-- Crawler loop of the prototype `crawlDirectoryHandle` (the version with
no path accumulation and no identity registry): iterates the enumerated
children of one directory, skipping disallowed names, recording files as
tree leaves and entry-list elements, and recursing into subdirectories
whose subtree is keyed with a trailing slash.  `tree` and `images` are the
loop accumulators; enumerating a broken directory raises. -/
def crawl002Loop : List FsTree → List (String × TreeNode) → List FsTree →
    Except String (List (String × TreeNode) × List FsTree)
  | [], tree, images => .ok (tree, images)
  | handle :: rest, tree, images =>
    if matchesDisallow handle.name then
      crawl002Loop rest tree images
    else
      match handle with
      | .file name =>
        crawl002Loop rest (jsSet tree name .leaf) (images ++ [.file name])
      | .dir name children =>
        match crawl002Loop children [] [] with
        | .ok (childTree, childImages) =>
          crawl002Loop rest (jsSet tree (name ++ "/") (.node childTree))
            (images ++ childImages)
        | .error e => .error e
      | .brokenDir _ => .error enumerationError
  termination_by l _ _ => sizeOf l

/-- Top-level `crawlDirectoryHandle(directoryHandle)` of the prototype:
enumerate the children of the root and run the loop with empty
accumulators.  A root whose enumeration
throws rejects; the source never calls this on a file handle, on which
`values()` would throw as well. -/
def crawlDirectoryHandle002 : FsTree →
    Except String (List (String × TreeNode) × List FsTree)
  | .dir _ children => crawl002Loop children [] []
  | .brokenDir _ => .error enumerationError
  | .file _ => .error enumerationError

/-- A name is clean when it does not begin with a dot. -/
def cleanName (s : String) : Bool :=
  !(s.data.head? == some '.')

mutual

/-- Every key at every depth of a tree node is clean. -/
def TreeNode.clean : TreeNode → Bool
  | .leaf => true
  | .node entries => cleanEntriesList entries

def cleanEntriesList : List (String × TreeNode) → Bool
  | [] => true
  | (k, v) :: rest => cleanName k && TreeNode.clean v && cleanEntriesList rest

end

/-- Every handle in an entry list has a clean name. -/
def cleanImages (l : List FsTree) : Bool :=
  l.all fun h => cleanName h.name

theorem cleanEntriesList_append (a b : List (String × TreeNode)) :
    cleanEntriesList (a ++ b) = (cleanEntriesList a && cleanEntriesList b) := by
  induction a with
  | nil => simp [cleanEntriesList]
  | cons head rest ih =>
    obtain ⟨k, v⟩ := head
    simp [cleanEntriesList, ih, Bool.and_assoc]

theorem cleanEntriesList_jsSet (m : List (String × TreeNode)) (k : String) (v : TreeNode)
    (hm : cleanEntriesList m = true) (hk : cleanName k = true) (hv : v.clean = true) :
    cleanEntriesList (jsSet m k v) = true := by
  induction m with
  | nil => simp [jsSet, cleanEntriesList, hk, hv]
  | cons head rest ih =>
    obtain ⟨k', v'⟩ := head
    simp only [cleanEntriesList, Bool.and_eq_true] at hm
    by_cases hkk : k' = k
    · subst hkk
      simp [jsSet, cleanEntriesList, hm.1.1, hv, hm.2]
    · simp [jsSet, hkk, cleanEntriesList, hm.1.1, hm.1.2, ih hm.2]

theorem cleanImages_append (a b : List FsTree) :
    cleanImages (a ++ b) = (cleanImages a && cleanImages b) := by
  simp [cleanImages, List.all_append]

/-- Appending a trailing slash to a clean directory name keeps it clean. -/
theorem cleanName_append_slash (s : String) (h : cleanName s = true) :
    cleanName (s ++ "/") = true := by
  have hdata : (s ++ "/").data = s.data ++ ['/'] := String.data_append s "/"
  unfold cleanName at h ⊢
  rw [hdata]
  cases hd : s.data with
  | nil => simp [hd]
  | cons c cs =>
    rw [hd] at h
    simp only [List.cons_append, List.head?_cons] at h ⊢
    exact h

/-- Disallow and cleanliness are complementary on a name. -/
theorem cleanName_of_not_disallowed (s : String) (h : matchesDisallow s = false) :
    cleanName s = true := by
  unfold matchesDisallow at h
  unfold cleanName
  simp [h]

theorem crawl002Loop_clean :
    ∀ (l : List FsTree) (tree : List (String × TreeNode)) (images : List FsTree),
      cleanEntriesList tree = true → cleanImages images = true →
      ∀ (t : List (String × TreeNode)) (i : List FsTree),
        crawl002Loop l tree images = .ok (t, i) →
        cleanEntriesList t = true ∧ cleanImages i = true := by
  intro l tree images
  induction l, tree, images using crawl002Loop.induct with
  | case1 tree images =>
    intro ht hi t i hok
    simp only [crawl002Loop] at hok
    cases hok
    exact ⟨ht, hi⟩
  | case2 handle rest tree images hdis ih =>
    intro ht hi t i hok
    rw [crawl002Loop.eq_def] at hok
    simp only [hdis, if_true] at hok
    exact ih ht hi t i hok
  | case3 rest tree images n hdis ih =>
    intro ht hi t i hok
    have hnd : matchesDisallow n = false := by
      simpa [FsTree.name, Bool.not_eq_true] using hdis
    have hn : cleanName n = true := cleanName_of_not_disallowed n hnd
    rw [crawl002Loop.eq_def] at hok
    simp only [FsTree.name, hnd, Bool.false_eq_true, if_false] at hok
    refine ih ?_ ?_ t i hok
    · exact cleanEntriesList_jsSet tree n .leaf ht hn rfl
    · rw [cleanImages_append, hi]
      simp [cleanImages, FsTree.name, hn]
  | case4 rest tree images n children childTree childImages hmatch hdis ihInner ihOuter =>
    intro ht hi t i hok
    have hnd : matchesDisallow n = false := by
      simpa [FsTree.name, Bool.not_eq_true] using hdis
    have hn : cleanName n = true := cleanName_of_not_disallowed n hnd
    rw [crawl002Loop.eq_def] at hok
    simp only [FsTree.name, hnd, Bool.false_eq_true, if_false, hmatch] at hok
    obtain ⟨hct, hci⟩ := ihInner rfl rfl childTree childImages hmatch
    refine ihOuter ?_ ?_ t i hok
    · refine cleanEntriesList_jsSet tree (n ++ "/") (.node childTree) ht
        (cleanName_append_slash n hn) ?_
      simpa [TreeNode.clean] using hct
    · simp [cleanImages_append, hi, hci]
  | case5 rest tree images n children e hmatch hdis ihInner =>
    intro ht hi t i hok
    have hnd : matchesDisallow n = false := by
      simpa [FsTree.name, Bool.not_eq_true] using hdis
    rw [crawl002Loop.eq_def] at hok
    simp only [FsTree.name, hnd, Bool.false_eq_true, if_false, hmatch] at hok
    exact Except.noConfusion hok
  | case6 rest tree images n hdis =>
    intro ht hi t i hok
    have hnd : matchesDisallow n = false := by
      simpa [FsTree.name, Bool.not_eq_true] using hdis
    rw [crawl002Loop.eq_def] at hok
    simp only [FsTree.name, hnd, Bool.false_eq_true, if_false] at hok
    exact Except.noConfusion hok

/-- C6: in any successful crawl, no name beginning with a dot appears as a
key anywhere in the resulting tree or as the name of an entry-list element
(first conjunct); and a child whose name matches the disallow policy is
skipped outright — the loop result on a disallowed head equals the result
on the tail, so a disallowed directory's descendants are never enumerated
(second conjunct). -/
theorem crawl_disallow_policy :
    (∀ (root : FsTree) (t : List (String × TreeNode)) (i : List FsTree),
        crawlDirectoryHandle002 root = .ok (t, i) →
        cleanEntriesList t = true ∧ cleanImages i = true)
    ∧ (∀ (handle : FsTree) (rest : List FsTree) (tree : List (String × TreeNode))
        (images : List FsTree),
        matchesDisallow handle.name = true →
        crawl002Loop (handle :: rest) tree images = crawl002Loop rest tree images) := by
  constructor
  · intro root t i hok
    match root with
    | .dir name children =>
      exact crawl002Loop_clean children [] [] rfl rfl t i hok
    | .brokenDir name =>
      exact Except.noConfusion hok
    | .file name =>
      exact Except.noConfusion hok
  · intro handle rest tree images hdis
    rw [crawl002Loop.eq_def]
    simp [hdis]

/-- Closed instance of `crawl_disallow_policy`: a crawl of a directory with
children `a.txt` and `.hidden` yields clean output, and the loop skips the
`.hidden` entry together with everything below it. -/
theorem crawl_disallow_policy_example :
    (cleanEntriesList [("a.txt", TreeNode.leaf)] = true
      ∧ cleanImages [FsTree.file "a.txt"] = true)
    ∧ crawl002Loop [FsTree.dir ".hidden" [FsTree.file "x"]] [] []
        = crawl002Loop [] [] [] := by
  constructor
  · refine crawl_disallow_policy.1 (.dir "r" [.file "a.txt", .file ".hidden"])
      [("a.txt", TreeNode.leaf)] [FsTree.file "a.txt"] ?_
    simp [crawlDirectoryHandle002, crawl002Loop, matchesDisallow, jsSet, FsTree.name]
  · exact crawl_disallow_policy.2 (.dir ".hidden" [.file "x"]) [] [] [] (by decide)

/-- C8: a crawl of an empty directory succeeds with an empty tree and an
empty entry list; a directory whose enumeration throws makes the crawl
fail with a propagated error rather than any (empty or partial) success
value — also when the broken directory is nested inside an otherwise
healthy one — so failure and success-with-zero-entries are distinct
outcomes of the `Except` result. -/
theorem crawl_failure_vs_empty :
    (∀ name : String, crawlDirectoryHandle002 (.dir name []) = .ok ([], []))
    ∧ (∀ name : String, crawlDirectoryHandle002 (.brokenDir name) = .error enumerationError)
    ∧ (∀ (rest : List FsTree) (tree : List (String × TreeNode))
        (images : List FsTree),
        crawl002Loop (FsTree.brokenDir "sub" :: rest) tree images = .error enumerationError)
    ∧ (∀ name : String, (crawlDirectoryHandle002 (.brokenDir name)).isOk = false
        ∧ (crawlDirectoryHandle002 (.dir name [])).isOk = true) := by
  have hempty : ∀ name : String, crawlDirectoryHandle002 (.dir name []) = .ok ([], []) := by
    intro name
    simp [crawlDirectoryHandle002, crawl002Loop]
  have hbroken : ∀ name : String,
      crawlDirectoryHandle002 (.brokenDir name) = .error enumerationError := by
    intro name
    simp [crawlDirectoryHandle002]
  refine ⟨hempty, hbroken, ?_, ?_⟩
  · intro rest tree images
    rw [crawl002Loop.eq_def]
    simp [matchesDisallow, FsTree.name]
  · intro name
    rw [hbroken name, hempty name]
    exact ⟨rfl, rfl⟩

/-- Crawler of `app/routes/_index.tsx` (`crawlDirectoryHandle` with path
accumulation and identity-registry resolution).  For each enumerated child
that survives the disallow filter, the `/`-joined path key is formed from
the accumulated `precedingPaths`, the observed handle is resolved through
`getStableFileSystemHandle` (the registry `known` is a module-global map
in the source and is threaded through here), and the stable handle is
used from then on: files are recorded in the tree under the stable name
and appended to the entry list, directories are crawled recursively under
the slash-marked key.  `fuel` is a modelling artifact bounding recursion
(the source recursion is bounded by the finite filesystem reachable
through the registry); exhaustion yields `none` and never occurs below. -/
def crawlIndexLoop (isSameEntry : FsTree → FsTree → Bool) :
    Nat → List FsTree → List String → List (String × FsTree) →
    List (String × TreeNode) → List FsTree →
    Option (Except String ((List (String × TreeNode) × List FsTree) × List (String × FsTree)))
  | 0, _, _, _, _, _ => none
  | _ + 1, [], _, known, tree, images => some (.ok ((tree, images), known))
  | fuel + 1, unstableHandle :: rest, precedingPaths, known, tree, images =>
    if matchesDisallow unstableHandle.name then
      crawlIndexLoop isSameEntry fuel rest precedingPaths known tree images
    else
      let fullPath := precedingPaths ++ [unstableHandle.name]
      let fullPathKey := String.intercalate "/" fullPath
      match getStableFileSystemHandle isSameEntry known fullPathKey unstableHandle with
      | (handle, known1) =>
        if handle.isFileKind then
          crawlIndexLoop isSameEntry fuel rest precedingPaths known1
            (jsSet tree handle.name .leaf) (images ++ [handle])
        else
          match handle with
          | .dir _ children =>
            match crawlIndexLoop isSameEntry fuel children fullPath known1 [] [] with
            | none => none
            | some (.error e) => some (.error e)
            | some (.ok ((childTree, childImages), known2)) =>
              crawlIndexLoop isSameEntry fuel rest precedingPaths known2
                (jsSet tree (handle.name ++ "/") (.node childTree)) (images ++ childImages)
          | _ => some (.error enumerationError)

/-- Top-level `crawlDirectoryHandle(directoryHandle)` of
`app/routes/_index.tsx`: enumerate the root's children with an empty path
accumulator and empty loop accumulators. -/
def crawlDirectoryHandleIndex (isSameEntry : FsTree → FsTree → Bool) (fuel : Nat)
    (root : FsTree) (known : List (String × FsTree)) :
    Option (Except String ((List (String × TreeNode) × List FsTree) × List (String × FsTree))) :=
  match root with
  | .dir _ children => crawlIndexLoop isSameEntry fuel children [] known [] []
  | _ => some (.error enumerationError)

/-- C7: crawling a directory with children `a.txt`, `.hidden` and `b/`
(containing `c.txt`), enumerated in that order, from an empty registry
yields the entry list holding the `a.txt` handle and then the `b/c.txt`
handle (depth-first, directory recursion in enumeration position), the
tree with `a.txt` as a leaf and `c.txt` as a leaf under the slash-marked
`b/` key, and a registry associating, in crawl order, the path keys
`a.txt`, `b` and `b/c.txt` to those handles — pairwise distinct keys, so
no path key occurs twice.  The registry-free prototype crawler produces
the same tree and entry list. -/
theorem crawl_scenario_tree_and_order :
    crawlDirectoryHandleIndex (fun _ _ => true) 10
        (.dir "root" [.file "a.txt", .file ".hidden", .dir "b" [.file "c.txt"]]) []
      = some (.ok ((([("a.txt", .leaf), ("b/", .node [("c.txt", .leaf)])],
            [.file "a.txt", .file "c.txt"])),
          [("a.txt", .file "a.txt"), ("b", .dir "b" [.file "c.txt"]),
            ("b/c.txt", .file "c.txt")]))
    ∧ (List.map Prod.fst
        [("a.txt", FsTree.file "a.txt"), ("b", FsTree.dir "b" [FsTree.file "c.txt"]),
          ("b/c.txt", FsTree.file "c.txt")]).Nodup
    ∧ crawlDirectoryHandle002
        (.dir "root" [.file "a.txt", .file ".hidden", .dir "b" [.file "c.txt"]])
      = .ok ([("a.txt", .leaf), ("b/", .node [("c.txt", .leaf)])],
          [.file "a.txt", .file "c.txt"]) := by
  refine ⟨rfl, by decide, ?_⟩
  simp [crawlDirectoryHandle002, crawl002Loop, matchesDisallow, jsSet, FsTree.name]

/-- The liveness probe `isLikelyUnmounted`: attempt one enumeration step
(`keys().next()`) against the handle and treat any throw as "likely no
longer mounted".  A live directory's first enumeration step succeeds
(also when the directory is empty); a broken directory's throws; on a
file handle the `keys()` call itself throws, which the catch also turns
into `true`. -/
def isLikelyUnmounted : FsTree → Bool
  | .dir _ _ => false
  | .brokenDir _ => true
  | .file _ => true

/-- Outcome of `clientLoader`: the not-selected variant, or the selected
variant carrying the directory name and the initial crawl's tree and
entry list.  (The source additionally ships a `treeify.asTree` string
rendering of the same tree and the raw handle — presentation only.) -/
inductive LoaderData where
  | notSelected
  | selected (directoryName : String) (tree : List (String × TreeNode)) (images : List FsTree)

/-- Restoration loader `clientLoader`: read the persisted directory handle from the external
store (`stored` models the `directory_handle` entry); if it is absent or
the liveness probe fails, `removeItem` the persisted entry and return the
not-selected variant; otherwise run the initial crawl and return the
selected variant with its results (a crawl that throws rejects the
loader).  The second component counts the `removeItem` invocations
performed by the call. -/
def clientLoader (stored : Option FsTree) : Except String LoaderData × Nat :=
  match stored with
  | none => (.ok .notSelected, 1)
  | some directoryHandle =>
    if isLikelyUnmounted directoryHandle then (.ok .notSelected, 1)
    else
      match crawlDirectoryHandle002 directoryHandle with
      | .ok (tree, images) => (.ok (.selected directoryHandle.name tree images), 0)
      | .error e => (.error e, 0)

/-- C5: restoration.  With no persisted handle, or with one whose liveness
probe fails, the loader removes the persisted entry exactly once and
initializes not-selected (`Ejected`); with a live persisted handle it
initializes selected with the initial crawl's results and never touches
`removeItem`. -/
theorem clientLoader_restoration :
    clientLoader none = (.ok .notSelected, 1)
    ∧ (∀ d : FsTree, isLikelyUnmounted d = true →
        clientLoader (some d) = (.ok .notSelected, 1))
    ∧ (∀ (d : FsTree) (tree : List (String × TreeNode)) (images : List FsTree),
        isLikelyUnmounted d = false →
        crawlDirectoryHandle002 d = .ok (tree, images) →
        clientLoader (some d) = (.ok (.selected d.name tree images), 0)) := by
  refine ⟨rfl, ?_, ?_⟩
  · intro d hd
    simp [clientLoader, hd]
  · intro d tree images hd hcrawl
    simp [clientLoader, hd, hcrawl]

/-- Closed instance of `clientLoader_restoration`: a persisted handle whose
probe throws is cleared once and ends not-selected; a live empty directory
restores into the selected variant with an empty crawl result. -/
theorem clientLoader_restoration_example :
    (isLikelyUnmounted (FsTree.brokenDir "gone") = true
      ∧ clientLoader (some (.brokenDir "gone")) = (.ok .notSelected, 1))
    ∧ (isLikelyUnmounted (FsTree.dir "root" []) = false
      ∧ crawlDirectoryHandle002 (.dir "root" []) = .ok ([], [])
      ∧ clientLoader (some (.dir "root" [])) = (.ok (.selected "root" [] []), 0)) := by
  refine ⟨⟨rfl, clientLoader_restoration.2.1 _ rfl⟩, rfl, ?_, ?_⟩
  · simp [crawlDirectoryHandle002, crawl002Loop]
  · exact clientLoader_restoration.2.2 (.dir "root" []) [] [] rfl
      (by simp [crawlDirectoryHandle002, crawl002Loop])

/-- Session states of the Effect actor (`Data.TaggedEnum`).  `Selected`
carries the chosen directory handle; the `files` stream stored alongside
it in the source is `makeFilesStream directory`, a function of the handle
(its semantics are modelled below by `flatMapSeqEmitted`). -/
inductive ActorState where
  | Ejected
  | Selecting
  | Selected (directory : FsTree)

/-- Observable actor context: the persisted store's `directory` entry, the
sequence of states published through the `SubscriptionRef` so far, and how
often the persisted entry's `removeItem` was invoked. -/
structure ActorEnv where
  store : Option FsTree
  published : List ActorState
  removeCount : Nat

/-- The actor's `eject`: `localForage.removeItem("directory")`, then
publish `Ejected`. -/
def eject (env : ActorEnv) : ActorEnv :=
  { store := none
    published := env.published ++ [ActorState.Ejected]
    removeCount := env.removeCount + 1 }

/-- The actor's `showDirectoryPicker`: publish `Selecting`, run the
platform picker (`pickerResult` is `some handle` on success and `none`
when the picker throws or the user cancels); on failure
`Effect.catchAll(eject)` runs `eject` and the undefined handle returns
early; on success the handle is persisted via `setItem` and `Selected`
published. -/
def showDirectoryPicker (pickerResult : Option FsTree) (env : ActorEnv) : ActorEnv :=
  let env1 := { env with published := env.published ++ [ActorState.Selecting] }
  match pickerResult with
  | none => eject env1
  | some handle =>
    { env1 with
      store := some handle
      published := env1.published ++ [ActorState.Selected handle] }

/-- C10: when the directory-picker interaction fails or is cancelled, the
actor publishes `Selecting` and then `Ejected`, and as part of that
failure path invokes `removeItem` on the persisted directory store once,
clearing any previously persisted handle. -/
theorem showDirectoryPicker_failure_ejects_and_clears :
    ∀ env : ActorEnv,
      (showDirectoryPicker none env).published
          = env.published ++ [ActorState.Selecting, ActorState.Ejected]
      ∧ (showDirectoryPicker none env).store = none
      ∧ (showDirectoryPicker none env).removeCount = env.removeCount + 1 := by
  intro env
  simp [showDirectoryPicker, eject]

/-- JS object spread `{ ...tree, ...flatSubtree }`: the right operand's
entries are assigned over the left in their own insertion order. -/
def jsMerge {α : Type} (m1 m2 : List (String × α)) : List (String × α) :=
  m2.foldl (fun acc kv => jsSet acc kv.1 kv.2) m1

/-- Crawler of the Effect prototype (`crawlDirectoryHandle` taking
`previousFiles` and an optional `AbortSignal`, producing the flat
path-keyed `FileTree`).  The abort signal is modelled by `aborted`, a
predicate on a logical clock counting the `signal?.aborted` checks
performed so far: an invocation holding the signal (`hasSignal`) checks
`aborted t` at the top of each iteration, breaking out of its loop (and
returning the tree built so far) when it holds, and otherwise advances
the clock; an invocation without the signal performs no checks.
Mirroring the source, the recursive call for a subdirectory passes
`directoryHandle`, `previousFiles` and `precedingPaths` but not `signal`,
so with `propagateSignal = false` (the source) recursive invocations run
with no signal; `propagateSignal = true` is modelled from the spec: the
cancellation check occurs before each child at every depth.  Here
`isSameEntry` is awaited by the source, so its boolean is consulted.
`fuel` is a modelling artifact as in `crawlIndexLoop`. -/
def crawl001Loop (isSameEntry : FsTree → FsTree → Bool) (aborted : Nat → Bool)
    (previousFiles : List (String × FsTree)) (propagateSignal : Bool) :
    Nat → List FsTree → Option String → Bool → List (String × FsTree) → Nat →
    Option (Except String (List (String × FsTree) × Nat))
  | 0, _, _, _, _, _ => none
  | _ + 1, [], _, _, tree, t => some (.ok (tree, t))
  | fuel + 1, handle :: rest, precedingPaths, hasSignal, tree, t =>
    if hasSignal && aborted t then some (.ok (tree, t))
    else
      let t1 := if hasSignal then t + 1 else t
      if matchesDisallow handle.name then
        crawl001Loop isSameEntry aborted previousFiles propagateSignal fuel rest
          precedingPaths hasSignal tree t1
      else
        let path := match precedingPaths with
          | none => handle.name
          | some p => p ++ "/" ++ handle.name
        let stable := match jsGet previousFiles path with
          | some prev => if isSameEntry prev handle then prev else handle
          | none => handle
        if stable.isFileKind then
          crawl001Loop isSameEntry aborted previousFiles propagateSignal fuel rest
            precedingPaths hasSignal (jsSet tree path stable) t1
        else
          match stable with
          | .dir _ children =>
            match crawl001Loop isSameEntry aborted previousFiles propagateSignal fuel
                children (some path) (propagateSignal && hasSignal) [] t1 with
            | none => none
            | some (.error e) => some (.error e)
            | some (.ok (flatSubtree, t2)) =>
              crawl001Loop isSameEntry aborted previousFiles propagateSignal fuel rest
                precedingPaths hasSignal (jsMerge tree flatSubtree) t2
          | _ => some (.error enumerationError)

/-- Top-level Effect-prototype crawl as invoked from `makeFilesStream`:
`crawlDirectoryHandle({ directoryHandle, previousFiles, signal })` with no
preceding paths; the root invocation holds the signal. -/
def crawlDirectoryHandleEffect (isSameEntry : FsTree → FsTree → Bool)
    (aborted : Nat → Bool) (propagateSignal : Bool) (fuel : Nat) (root : FsTree)
    (previousFiles : List (String × FsTree)) (t : Nat) :
    Option (Except String (List (String × FsTree) × Nat)) :=
  match root with
  | .dir _ children =>
    crawl001Loop isSameEntry aborted previousFiles propagateSignal fuel children
      none true [] t
  | _ => some (.error enumerationError)

/-- C2 (evaluation at the failing input): crawling
`root [ b [ c.txt ], d.txt ]` with a signal that becomes aborted after the
first cooperative check — i.e. while `b` is being crawled — the source
crawler still processes `b`'s child `c.txt` (it appears in the result),
because the recursive call omits the signal and nested invocations never
check it; with the spec-described check before each child at every depth
(`propagateSignal = true`) the aborted crawl processes no child of `b`. -/
theorem crawl_nested_subtree_ignores_abort :
    crawlDirectoryHandleEffect (fun _ _ => false) (fun t => decide (1 ≤ t)) false 10
        (.dir "root" [.dir "b" [.file "c.txt"], .file "d.txt"]) [] 0
      = some (.ok ([("b/c.txt", .file "c.txt")], 1))
    ∧ crawlDirectoryHandleEffect (fun _ _ => false) (fun t => decide (1 ≤ t)) true 10
        (.dir "root" [.dir "b" [.file "c.txt"], .file "d.txt"]) [] 0
      = some (.ok ([], 1))
    ∧ (fun t => decide (1 ≤ t)) 1 = true := by
  exact ⟨rfl, rfl, rfl⟩

/-- A re-crawl trigger: when it fires and how long the crawl it launches
takes. -/
structure Trigger where
  arrival : Nat
  crawlDuration : Nat

/-- Semantics of the source pipeline `makeFilesStream`:
`Stream.mergeAll(invalidators, unbounded) |> Stream.flatMap(crawl)` where
`Stream.flatMap` is used with default options — sequential concatenation
of the inner streams, not `switch: true`.  The crawl for a trigger starts
only once the previous crawl finished (the later of its arrival and the
previous completion), runs to completion uninterrupted, and its result is
emitted downstream.  Each emitted element is the index of the crawl that
produced it paired with its completion time. -/
def flatMapSeqEmitted : Nat → Nat → List Trigger → List (Nat × Nat)
  | _, _, [] => []
  | idx, now, trig :: rest =>
    let start := max trig.arrival now
    let fin := start + trig.crawlDuration
    (idx, fin) :: flatMapSeqEmitted (idx + 1) fin rest

/-- The results `makeFilesStream` publishes for a finite trigger trace. -/
def makeFilesStreamEmitted (triggers : List Trigger) : List (Nat × Nat) :=
  flatMapSeqEmitted 0 0 triggers

/-- Modelled from the spec: the supersede-and-cancel ("switch") semantics
the concurrency guarantee describes — a trigger arriving strictly before
the in-flight crawl's completion cancels it, and a cancelled crawl's
result is never emitted; only a crawl that completes before the next
trigger publishes. -/
def switchEmitted : Nat → List Trigger → List (Nat × Nat)
  | _, [] => []
  | idx, trig :: rest =>
    let fin := trig.arrival + trig.crawlDuration
    match rest with
    | [] => [(idx, fin)]
    | next :: _ =>
      if next.arrival < fin then switchEmitted (idx + 1) rest
      else (idx, fin) :: switchEmitted (idx + 1) rest

/-- C1 (evaluation at the failing input): two triggers fire at times 0 and
1 while each crawl takes 10 — the second arrives long before the first
crawl completes.  The source pipeline publishes the results of both
crawls, the superseded first one included (it is element `(0, 10)` of the
emitted list); the spec-described switch semantics would publish only the
second crawl's result. -/
theorem makeFilesStream_publishes_superseded_result :
    makeFilesStreamEmitted [⟨0, 10⟩, ⟨1, 10⟩] = [(0, 10), (1, 20)]
    ∧ (0, 10) ∈ makeFilesStreamEmitted [⟨0, 10⟩, ⟨1, 10⟩]
    ∧ switchEmitted 0 [⟨0, 10⟩, ⟨1, 10⟩] = [(1, 11)] := by
  refine ⟨rfl, ?_, rfl⟩
  decide
